import Mathlib

/-
  Verification of the segregated-free-list memory allocator in src/mm.c.

  The allocator is shallowly embedded as executable Lean functions:
  machine integers (size_t) are modeled as Nat with explicit reduction
  mod 2^64 where overflow matters, the heap arena is modeled as a list
  of blocks between the two fence sentinels, and the segregated free
  lists are modeled as ten lists of block addresses (word offsets from
  the first block).  Fallible operations return Option.
-/

set_option maxRecDepth 4000

namespace Malloc

/-! ## Basic constants (src/mm.c lines 50-54, config.h) -/

/-- WSIZE: word and boundary-tag size in bytes. -/
def WSIZE : Nat := 4

/-- Minimum block size in words. -/
def MIN_BLOCK_SIZE_WORDS : Nat := 8

/-- Extend heap by this amount, in words. -/
def CHUNKSIZE : Nat := 128

/-- Number of size classes for the segregated lists. -/
def NUM_SIZE_CLASSES : Nat := 10

/-- Modelled from the spec: the alignment constant ALIGNMENT comes from
config.h, which is not part of src/.  The spec states payload addresses
are aligned to the arena alignment constant, commonly 16 bytes, and the
block comment in src/mm.c lines 41-46 places blocks at 12 mod 16 so that
payloads land at 0 mod 16, so ALIGNMENT is 16. -/
def ALIGNMENT : Nat := 16

/-- Modulus of the 64-bit size_t arithmetic used by the C code. -/
def W64 : Nat := 2 ^ 64

/-! ## Size normalization (src/mm.c lines 61-64, 176-192, 256-261) -/

/-- align: round a size up to the alignment constant, with the size_t
wraparound of the C expression (size + ALIGNMENT - 1) AND NOT (ALIGNMENT-1). -/
def align (size : Nat) : Nat :=
  (((size + (ALIGNMENT - 1)) % W64) / ALIGNMENT) * ALIGNMENT

/-- The size remaps mm_malloc applies before normalization
(src/mm.c lines 179-184): 448 becomes 512 and 112 becomes 128. -/
def mallocRemap (size : Nat) : Nat :=
  if size = 448 then 512
  else if size = 112 then 128
  else size

/-- Shared normalization arithmetic of mm_malloc (lines 186-192) and
mm_realloc (lines 256-261): add two boundary-tag sizes, round up to the
alignment constant, fail on size_t overflow, then express in words and
clamp to the minimum block size. -/
def awordsOf (size : Nat) : Option Nat :=
  let bsize := align ((size + 2 * WSIZE) % W64)
  if bsize < size then none
  else some (max MIN_BLOCK_SIZE_WORDS (bsize / WSIZE))

/-- The adjusted word count mm_malloc computes for a nonzero request,
including the literal size remaps (src/mm.c lines 179-192). -/
def malloc_awords (size : Nat) : Option Nat :=
  awordsOf (mallocRemap size)

/-- The adjusted word count mm_realloc computes for a nonzero request
(src/mm.c lines 256-261); no remap is applied. -/
def realloc_awords (size : Nat) : Option Nat :=
  awordsOf size

/-! ## Heap model

The arena is a list of blocks lying between the prologue fence (on the
left) and the epilogue fence (on the right).  A block records its size
in words, its in-use bit, and its payload contents (a list of bytes;
the contents of a free block are unspecified and modeled as the empty
list).  Block addresses are word offsets from the first block, the sum
of the sizes of all blocks to the left.  Boundary tags are implicit in
this representation: the header and footer of a block both denote the
pair of its size and in-use bit, and reading a tag one word past either
end of the arena yields the fence value (in use, size zero). -/

/-- A heap block: boundary-tag contents plus payload bytes. -/
structure Blk where
  size  : Nat
  inuse : Bool
  bytes : List Nat
deriving Repr, DecidableEq

/-- The fence sentinel seen when reading a boundary tag beyond either
arena edge: permanently in use, size zero. -/
def fenceBlk : Blk := ⟨0, true, []⟩

/-- Allocator state: the arena blocks in address order, and the ten
segregated free lists, each a list of free-block addresses. -/
structure St where
  heap    : List Blk
  buckets : List (List Nat)
deriving Repr, DecidableEq

/-- Sum of the sizes of a list of blocks, in words. -/
def sizeSum (l : List Blk) : Nat := (l.map Blk.size).sum

/-- Word address of the block at index i: total size of the blocks to
its left. -/
def addrOf (h : List Blk) (i : Nat) : Nat := sizeSum (h.take i)

/-- Read the block at index i; out of range reads give the fence, which
matches reading the epilogue header past the last block. -/
def hGet (h : List Blk) (i : Nat) : Blk := h.getD i fenceBlk

/-- The boundary tag the code reads through prev_blk_footer
(src/mm.c lines 87-89): the block to the left, or the prologue
fence for the leftmost block. -/
def prevOf (h : List Blk) (i : Nat) : Blk :=
  if i = 0 then fenceBlk else hGet h (i - 1)

/-- Resolve a word address to a block index by walking the arena from
the left, mirroring how block pointers identify blocks in memory. -/
def idxAt : List Blk → Nat → Option Nat
  | [], _ => none
  | b :: t, a =>
    if a = 0 then some 0
    else if a < b.size then none
    else (idxAt t (a - b.size)).map (· + 1)

/-- The block starting at word address a, if any. -/
def blkAt (h : List Blk) (a : Nat) : Option Blk :=
  match idxAt h a with
  | some i => some (hGet h i)
  | none => none

/-- blk_size read through a block pointer (src/mm.c lines 97-99). -/
def blkSizeAt (h : List Blk) (a : Nat) : Nat :=
  ((blkAt h a).getD fenceBlk).size

/-- blk_free read through a block pointer (src/mm.c lines 92-94). -/
def blkFreeAt (h : List Blk) (a : Nat) : Bool :=
  !((blkAt h a).getD fenceBlk).inuse

/-- Payload length in bytes of a block of s words: the block minus its
two boundary tags. -/
def payloadLen (s : Nat) : Nat := s * WSIZE - 2 * WSIZE

/-- Replace n consecutive blocks starting at index i by the given
blocks; the in-place tag rewrites of coalescing, splitting and merging
are all block-list surgeries of this shape. -/
def splice (h : List Blk) (i n : Nat) (bs : List Blk) : List Blk :=
  h.take i ++ bs ++ h.drop (i + n)

/-- The C pointer value of the block at word offset a when the arena
was placed at byte address base by mem_sbrk: the first block lives at
base + 12 (src/mm.c lines 147-160), and each word is 4 bytes.  Used to
model the pointer comparison next_blk(oldblock) == NULL faithfully. -/
def blkPtr (base a : Nat) : Nat := base + 12 + WSIZE * a

/-! ## Segregated free-list manager (src/mm.c lines 437-472) -/

/-- Modify the entry at an index of a list of lists. -/
def listModify : List (List Nat) → Nat → (List Nat → List Nat) → List (List Nat)
  | [], _, _ => []
  | l :: ls, 0, f => f l :: ls
  | l :: ls, i + 1, f => l :: listModify ls i f

/-- Bucket selection by block size against the doubling thresholds of
segregatedListAdd (src/mm.c lines 440-471). -/
def bucketIndex (blkSize : Nat) : Nat :=
  if blkSize ≤ 128 then 0
  else if blkSize ≤ 256 then 1
  else if blkSize ≤ 512 then 2
  else if blkSize ≤ 1024 then 3
  else if blkSize ≤ 2048 then 4
  else if blkSize ≤ 4096 then 5
  else if blkSize ≤ 8192 then 6
  else if blkSize ≤ 16384 then 7
  else if blkSize ≤ 32768 then 8
  else 9

/-- segregatedListAdd: push the block onto the front of the list of its
size class. -/
def segregatedListAdd (bkts : List (List Nat)) (a blkSize : Nat) : List (List Nat) :=
  listModify bkts (bucketIndex blkSize) (fun l => a :: l)

/-- list_remove on the intrusive list element of the block at address
a: unlink it from whichever free list holds it. -/
def bucketsRemove (bkts : List (List Nat)) (a : Nat) : List (List Nat) :=
  bkts.map (fun l => l.erase a)

/-! ## find_fit (src/mm.c lines 408-431) -/

/-- The fit test of the inner loop of find_fit: the candidate block is
free and at least asize words. -/
def fitsB (h : List Blk) (asize a : Nat) : Bool :=
  blkFreeAt h a && decide (asize ≤ blkSizeAt h a)

/-- The inner loop of find_fit over one bucket, carrying the counter:
the counter is incremented on entry and the loop breaks when it
reaches 5, before the fit test runs. -/
def findFitBucket (h : List Blk) (asize : Nat) : Nat → List Nat → Option Nat
  | _, [] => none
  | count, a :: rest =>
    if 5 ≤ count + 1 then none
    else if fitsB h asize a then some a
    else findFitBucket h asize (count + 1) rest

/-- The outer loop of find_fit: buckets in ascending index order, each
scanned by the inner loop starting from counter zero. -/
def findFitBuckets (h : List Blk) (asize : Nat) : List (List Nat) → Option Nat
  | [] => none
  | l :: ls =>
    match findFitBucket h asize 0 l with
    | some a => some a
    | none => findFitBuckets h asize ls

/-- find_fit: search the segregated lists for a block of at least asize
words. -/
def find_fit (st : St) (asize : Nat) : Option Nat :=
  findFitBuckets st.heap asize st.buckets

/-! ## Coalescer (src/mm.c lines 321-351) -/

/-- Result of coalesce: the address of the (possibly moved) merged
block, the new allocator state, and the trace of
set_header_and_footer writes the call performed, each recorded as
the written block address, size and in-use bit. -/
structure CoalRes where
  addr   : Nat
  st     : St
  writes : List (Nat × Nat × Bool)
deriving Repr, DecidableEq

/-- coalesce on the block at index i: dispatch on the in-use bits of
the predecessor footer and the successor header, merge accordingly,
and insert the merged block into its size class. -/
def coalesce (st : St) (i : Nat) : CoalRes :=
  let h := st.heap
  let bp := hGet h i
  let size := bp.size
  let prev := prevOf h i
  let next := hGet h (i + 1)
  let prev_alloc := prev.inuse
  let next_alloc := next.inuse
  let a := addrOf h i
  if prev_alloc && next_alloc then
    -- Case 1: no merge
    { addr := a
      st := ⟨h, segregatedListAdd st.buckets a size⟩
      writes := [] }
  else if prev_alloc && !next_alloc then
    -- Case 2: absorb the successor, address unchanged
    let msz := size + next.size
    let bkts := bucketsRemove st.buckets (a + size)
    { addr := a
      st := ⟨splice h i 2 [⟨msz, false, []⟩], segregatedListAdd bkts a msz⟩
      writes := [(a, msz, false)] }
  else if !prev_alloc && next_alloc then
    -- Case 3: merge into the predecessor
    let msz := size + prev.size
    let pa := a - prev.size
    let bkts := bucketsRemove st.buckets pa
    { addr := pa
      st := ⟨splice h (i - 1) 2 [⟨msz, false, []⟩], segregatedListAdd bkts pa msz⟩
      writes := [(pa, msz, false)] }
  else
    -- Case 4: both neighbors merge into the predecessor
    let msz := size + next.size + prev.size
    let pa := a - prev.size
    let bkts := bucketsRemove (bucketsRemove st.buckets pa) (a + size)
    { addr := pa
      st := ⟨splice h (i - 1) 3 [⟨msz, false, []⟩], segregatedListAdd bkts pa msz⟩
      writes := [(pa, msz, false)] }

/-! ## place and extend_heap (src/mm.c lines 364-401) -/

/-- place the asize-word request at the free block at address a:
detach the block from its list, split when the remainder is at least
the minimum block size, else allocate the whole block.  Tag writes do
not touch payload memory, so the payload prefix is carried over. -/
def place (st : St) (a asize : Nat) : St :=
  match idxAt st.heap a with
  | none => st
  | some i =>
    let bp := hGet st.heap i
    let csize := bp.size
    let bkts := bucketsRemove st.buckets a
    if MIN_BLOCK_SIZE_WORDS ≤ csize - asize then
      ⟨splice st.heap i 1
          [⟨asize, true, bp.bytes.take (payloadLen asize)⟩,
           ⟨csize - asize, false, []⟩],
        segregatedListAdd bkts (a + asize) (csize - asize)⟩
    else
      ⟨splice st.heap i 1 [⟨csize, true, bp.bytes⟩], bkts⟩

/-- extend_heap: ask the growth primitive (whose success is the growOk
oracle) for words new words; on success the new free block overwrites
the old epilogue at the right arena edge, a fresh fence is written
after it, and the block is routed through the coalescer. -/
def extend_heap (st : St) (growOk : Bool) (words : Nat) : Option (Nat × St) :=
  if growOk then
    let r := coalesce ⟨st.heap ++ [⟨words, false, []⟩], st.buckets⟩ st.heap.length
    some (r.addr, r.st)
  else none

/-! ## Public operations (src/mm.c lines 142-311) -/

/-- mm_free: no-op on null, otherwise mark the block free and
coalesce (src/mm.c lines 212-225).  A pointer that resolves to no
block is undefined behavior in C and modeled as inert. -/
def mm_free (st : St) (ptr : Option Nat) : St :=
  match ptr with
  | none => st
  | some a =>
    match idxAt st.heap a with
    | none => st
    | some i =>
      let size := (hGet st.heap i).size
      (coalesce ⟨st.heap.set i ⟨size, false, []⟩, st.buckets⟩ i).st

/-- mm_malloc (src/mm.c lines 172-207): reject zero, remap and
normalize the size, search the free lists, place on a hit; otherwise
extend the heap by max(awords, CHUNKSIZE) and place there, failing if
the growth primitive fails. -/
def mm_malloc (st : St) (growOk : Bool) (size : Nat) : Option Nat × St :=
  if size = 0 then (none, st)
  else
    match malloc_awords size with
    | none => (none, st)
    | some awords =>
      match find_fit st awords with
      | some a => (some a, place st a awords)
      | none =>
        match extend_heap st growOk (max awords CHUNKSIZE) with
        | none => (none, st)
        | some (a, st1) => (some a, place st1 a awords)

/-- memcpy into the payload of the block at address a: overwrite its
first bytes with the given list. -/
def writeBytes (st : St) (a : Nat) (bs : List Nat) : St :=
  match idxAt st.heap a with
  | none => st
  | some i =>
    let b := hGet st.heap i
    ⟨st.heap.set i ⟨b.size, b.inuse, bs ++ b.bytes.drop bs.length⟩, st.buckets⟩

/-- Payload bytes of the block at address a. -/
def bytesAt (h : List Blk) (a : Nat) : List Nat :=
  ((blkAt h a).getD fenceBlk).bytes

/-- The general fallback tail of mm_realloc (src/mm.c lines 297-311):
allocate fresh, bail out with the state malloc left (which is the
input state, see mm_malloc_fail_state) when that fails, else copy
min(size, oldpayloadsize) bytes from the old payload and free the old
block. -/
def reallocGeneral (st : St) (growOk : Bool) (a size oldpayloadsize : Nat) :
    Option Nat × St :=
  match mm_malloc st growOk size with
  | (none, st1) => (none, st1)
  | (some na, st1) =>
    let copied := min size oldpayloadsize
    let st2 := writeBytes st1 na ((bytesAt st1.heap a).take copied)
    (some na, mm_free st2 (some a))

/-- mm_realloc (src/mm.c lines 233-311).  base is the byte address at
which mem_sbrk placed the arena; it enters only through the literal
pointer comparison next_blk(oldblock) == NULL of the end-of-heap case.
The four in-place cases mirror the source: absorb the free
predecessor, absorb the free successor, absorb both, the (dead)
end-of-heap extension, and otherwise the general fallback. -/
def mm_realloc (base : Nat) (st : St) (growOk : Bool) (ptr : Option Nat)
    (size : Nat) : Option Nat × St :=
  if size = 0 then (none, mm_free st ptr)
  else
    match ptr with
    | none => mm_malloc st growOk size
    | some a =>
      match idxAt st.heap a with
      | none => (none, st)
      | some i =>
        let oldblock := hGet st.heap i
        let oldpayloadsize := payloadLen oldblock.size
        let prev_alloc := (prevOf st.heap i).inuse
        let next_alloc := (hGet st.heap (i + 1)).inuse
        match realloc_awords size with
        | none => (none, st)
        | some awords =>
          let prevSize := (prevOf st.heap i).size
          let curSize := oldblock.size
          let nextSize := (hGet st.heap (i + 1)).size
          if prev_alloc = false ∧ next_alloc = true ∧
              awords ≤ prevSize + curSize then
            -- Case 1: merge leftward, move the payload
            let pa := a - prevSize
            let msz := curSize + prevSize
            (some pa,
              ⟨splice st.heap (i - 1) 2
                  [⟨msz, true, oldblock.bytes.take oldpayloadsize⟩],
                bucketsRemove st.buckets pa⟩)
          else if next_alloc = false ∧ awords ≤ nextSize + curSize then
            -- Case 2: absorb the successor in place
            let msz := nextSize + curSize
            (some a,
              ⟨splice st.heap i 2 [⟨msz, true, oldblock.bytes⟩],
                bucketsRemove st.buckets (a + curSize)⟩)
          else if prev_alloc = false ∧ next_alloc = false ∧
              awords ≤ prevSize + curSize + nextSize then
            -- Case 4: absorb both neighbors, move the payload
            let pa := a - prevSize
            let msz := nextSize + curSize + prevSize
            (some pa,
              ⟨splice st.heap (i - 1) 3
                  [⟨msz, true, oldblock.bytes.take oldpayloadsize⟩],
                bucketsRemove (bucketsRemove st.buckets (a + curSize)) pa⟩)
          else if prev_alloc = true ∧ blkPtr base (a + curSize) = 0 then
            -- Case 5, at end of heap: guarded by the literal pointer
            -- test next_blk(oldblock) == NULL, which never holds
            let st1 :=
              match extend_heap st growOk CHUNKSIZE with
              | some (_, s) => s
              | none => st
            let nsz := (hGet st1.heap (i + 1)).size
            let msz := nsz + curSize
            (some a,
              ⟨splice st1.heap i 2 [⟨msz, true, oldblock.bytes⟩], st1.buckets⟩)
          else
            reallocGeneral st growOk a size oldpayloadsize

/-- mm_init (src/mm.c lines 142-166): empty arena, ten empty free
lists, then one initial extension by CHUNKSIZE. -/
def init_state : St := ⟨[], List.replicate NUM_SIZE_CLASSES []⟩

/-- mm_init returning the resulting state, or none when the growth
primitive fails. -/
def mm_init (growOk : Bool) : Option St :=
  match extend_heap init_state growOk CHUNKSIZE with
  | some (_, st) => some st
  | none => none

/-! ## Word-level boundary-tag model (for the write-path invariant)

The block-list model above folds the header and footer of a block into
one record, so it cannot distinguish them.  To check the write-path
claim, the arena is modeled once more at word granularity: memory is a
list of boundary tags, one per word, and set_header_and_footer is the
two-store sequence of src/mm.c lines 122-126.  The direct tag stores of
the code (the fence writes of mm_init lines 158-160 and extend_heap
line 375) are recorded as raw write events. -/

/-- A boundary tag: in-use bit and size in words
(src/mm.c lines 29-33). -/
structure Tag where
  inuse : Bool
  size  : Nat
deriving Repr, DecidableEq

/-- The fence tag (src/mm.c lines 35-38). -/
def FENCE : Tag := ⟨true, 0⟩

/-- set_header_and_footer (src/mm.c lines 122-126): store the tag at
the header word of the block, then copy the header to the footer word,
which lies size - 1 words further right. -/
def set_header_and_footer (mem : List Tag) (blk size : Nat) (inuse : Bool) :
    List Tag :=
  let mem1 := mem.set blk ⟨inuse, size⟩
  mem1.set (blk + size - 1) (mem1.getD blk FENCE)

/-- A boundary-tag write event: either a paired header-and-footer
write through set_header_and_footer, or a raw single-word tag store. -/
inductive TagWrite where
  | shf (blk size : Nat) (inuse : Bool)
  | raw (addr : Nat) (t : Tag)
deriving Repr, DecidableEq

/-- Whether a write event bypassed set_header_and_footer. -/
def TagWrite.isRaw : TagWrite → Bool
  | .raw _ _ => true
  | .shf _ _ _ => false

/-- The boundary-tag writes extend_heap performs (src/mm.c lines
364-379) when the old epilogue fence stood at word oldEpi:
mark_block_free on the new block (one paired write through
set_header_and_footer), then the raw store of the fresh epilogue fence
header one word past the new block. -/
def extend_heap_writes (oldEpi words : Nat) : List TagWrite :=
  [.shf oldEpi words false, .raw (oldEpi + words) FENCE]

/-- The boundary-tag writes mm_init performs (src/mm.c lines 142-166):
the raw stores of the prologue footer at word 2 and the epilogue
header at word 3, followed by the writes of the initial extension,
whose new block overwrites the epilogue at word 3. -/
def mm_init_writes : List TagWrite :=
  [.raw 2 FENCE, .raw 3 FENCE] ++ extend_heap_writes 3 CHUNKSIZE

/-! ## Helper lemmas about the heap representation -/

theorem sizeSum_append (L M : List Blk) :
    sizeSum (L ++ M) = sizeSum L + sizeSum M := by
  simp [sizeSum]

theorem take_app (L M : List Blk) (k : Nat) :
    (L ++ M).take (L.length + k) = L ++ M.take k := by
  induction L with
  | nil => simp
  | cons b t ih =>
    have hlen : (b :: t).length + k = (t.length + k) + 1 := by
      simp [List.length_cons]; omega
    rw [List.cons_append, hlen, List.take_succ_cons, ih, List.cons_append]

theorem drop_app (L M : List Blk) (k : Nat) :
    (L ++ M).drop (L.length + k) = M.drop k := by
  induction L with
  | nil => simp
  | cons b t ih =>
    have hlen : (b :: t).length + k = (t.length + k) + 1 := by
      simp [List.length_cons]; omega
    rw [List.cons_append, hlen, List.drop_succ_cons, ih]

theorem hGet_app (L M : List Blk) (k : Nat) :
    hGet (L ++ M) (L.length + k) = hGet M k := by
  induction L with
  | nil => simp [hGet]
  | cons b t ih =>
    have hlen : (b :: t).length + k = (t.length + k) + 1 := by
      simp [List.length_cons]; omega
    rw [List.cons_append, hlen]
    simpa [hGet, List.getD] using ih

theorem addrOf_app (L M : List Blk) (k : Nat) :
    addrOf (L ++ M) (L.length + k) = sizeSum L + addrOf M k := by
  simp [addrOf, take_app, sizeSum_append]

theorem idxAt_sizeSum (L : List Blk) (b : Blk) (M : List Blk)
    (hL : ∀ x ∈ L, 1 ≤ x.size) :
    idxAt (L ++ b :: M) (sizeSum L) = some L.length := by
  induction L with
  | nil => simp [idxAt, sizeSum]
  | cons x t ih =>
    have hx : 1 ≤ x.size := hL x (by simp)
    have ht : ∀ y ∈ t, 1 ≤ y.size := fun y hy => hL y (by simp [hy])
    have hss : sizeSum (x :: t) = x.size + sizeSum t := by simp [sizeSum]
    have hne : ¬ sizeSum (x :: t) = 0 := by omega
    have hlt : ¬ sizeSum (x :: t) < x.size := by omega
    have hsub : sizeSum (x :: t) - x.size = sizeSum t := by omega
    simp [idxAt, hne, hlt, hsub, ih ht]

/-! ## Helper lemmas about find_fit -/

theorem findFitBucket_eq (h : List Blk) (asize : Nat) (l : List Nat) (count : Nat) :
    findFitBucket h asize count l = (l.take (4 - count)).find? (fitsB h asize) := by
  induction l generalizing count with
  | nil => simp [findFitBucket]
  | cons a t ih =>
    by_cases h5 : 5 ≤ count + 1
    · have h0 : 4 - count = 0 := by omega
      simp [findFitBucket, h5, h0]
    · have h4 : 4 - count = (4 - (count + 1)) + 1 := by omega
      rw [h4, List.take_succ_cons]
      cases hf : fitsB h asize a
      · rw [List.find?_cons_of_neg _ (by simp [hf])]
        simp [findFitBucket, h5, hf, ih]
      · rw [List.find?_cons_of_pos _ hf]
        simp [findFitBucket, h5, hf]

/-- The bounded first-fit search as the code actually behaves, written
from the corrected spec sentence: within each bucket, in ascending
bucket order, accept the first of the first four list entries that is
free and large enough; a fifth entry is never examined. -/
def findFitSpec (h : List Blk) (asize : Nat) : List (List Nat) → Option Nat
  | [] => none
  | l :: ls =>
    match (l.take 4).find? (fitsB h asize) with
    | some a => some a
    | none => findFitSpec h asize ls

theorem findFitBuckets_eq (h : List Blk) (asize : Nat) (bs : List (List Nat)) :
    findFitBuckets h asize bs = findFitSpec h asize bs := by
  induction bs with
  | nil => rfl
  | cons l ls ih =>
    have h4 : findFitBucket h asize 0 l = (l.take 4).find? (fitsB h asize) :=
      findFitBucket_eq h asize l 0
    rw [findFitBuckets, findFitSpec, h4, ih]

/-! ## Claim C1 -/

/-- Claim C1 counterexample: a bucket whose first four free blocks are
too small for a request of 10 words while its fifth block (address 32,
size 16, free) fits.  The claim states the fifth candidate is examined
and returned; the code abandons the bucket when the counter reaches
five, before examining the fifth block, and the search returns none. -/
theorem claim_C1_cex :
    blkFreeAt [⟨8, false, []⟩, ⟨8, false, []⟩, ⟨8, false, []⟩, ⟨8, false, []⟩,
        ⟨16, false, []⟩] 32 = true ∧
    10 ≤ blkSizeAt [⟨8, false, []⟩, ⟨8, false, []⟩, ⟨8, false, []⟩, ⟨8, false, []⟩,
        ⟨16, false, []⟩] 32 ∧
    find_fit ⟨[⟨8, false, []⟩, ⟨8, false, []⟩, ⟨8, false, []⟩, ⟨8, false, []⟩,
        ⟨16, false, []⟩],
        [[0, 8, 16, 24, 32], [], [], [], [], [], [], [], [], []]⟩ 10 = none := by
  refine ⟨?_, ?_, ?_⟩ <;> decide

/-- Claim C1 as amended: for every needed size and every state, the fit
search scans the buckets in ascending order and, within each bucket,
scans the free list in list order and returns the first of the first
four entries examined that is free and at least the needed size; the
bucket is abandoned once the counter, incremented before the fit test,
reaches five, so a fifth entry is never examined. -/
theorem claim_C1_amended (st : St) (asize : Nat) :
    find_fit st asize = findFitSpec st.heap asize st.buckets :=
  findFitBuckets_eq st.heap asize st.buckets

/-! ## Claim C2 -/

/-- Claim C2 counterexample: at requested size 448, mm_malloc first
remaps the request to 512 and normalizes that (132 words), while the
in-place path of mm_realloc normalizes 448 itself (116 words); the two
normalizations also differ at 112.  This refutes the claim that both
apply the same rule to n itself with no other transformation. -/
theorem claim_C2_cex :
    malloc_awords 448 = some 132 ∧ realloc_awords 448 = some 116 ∧
    malloc_awords 448 ≠ realloc_awords 448 ∧
    malloc_awords 112 ≠ realloc_awords 112 := by
  refine ⟨?_, ?_, ?_, ?_⟩ <;> decide

/-- Claim C2 as amended: for every requested size n other than the two
remapped literals 448 and 112, allocate and the in-place path of
resize compute the same normalized block size, by adding two
boundary-tag sizes to n, rounding up to the alignment constant,
dividing by the word size and clamping to the minimum of 8 words; at
448 and 112 allocate first remaps the request to 512 resp. 128. -/
theorem claim_C2_amended (n : Nat) (h1 : n ≠ 448) (h2 : n ≠ 112) :
    malloc_awords n = realloc_awords n ∧
    realloc_awords n =
      (if align ((n + 2 * WSIZE) % W64) < n then none
       else some (max MIN_BLOCK_SIZE_WORDS (align ((n + 2 * WSIZE) % W64) / WSIZE))) := by
  constructor
  · simp [malloc_awords, realloc_awords, mallocRemap, h1, h2]
  · rfl

/-- Witness for claim C2 at the concrete request 100. -/
theorem claim_C2_witness :
    malloc_awords 100 = realloc_awords 100 ∧
    realloc_awords 100 =
      (if align ((100 + 2 * WSIZE) % W64) < 100 then none
       else some (max MIN_BLOCK_SIZE_WORDS (align ((100 + 2 * WSIZE) % W64) / WSIZE))) :=
  claim_C2_amended 100 (by decide) (by decide)

/-! ## Claim C3 -/

/-- Claim C3: the end-of-heap case of mm_realloc is guarded by the
pointer comparison next_blk(oldblock) == NULL, and next_blk never
yields a null pointer, so the guard is false for every base address,
block address and block size and the case is dead.  Concretely, in an
arena holding one allocated 8-word block whose successor is the
epilogue fence and whose predecessor is the (allocated) prologue
fence, resizing that block to 100 bytes takes the general
allocate-copy-free path and returns the moved address 8, not the
original address 0 that the claimed extend-and-absorb behavior would
preserve. -/
theorem claim_C3 :
    (∀ base a s : Nat, blkPtr base (a + s) ≠ 0) ∧
    (mm_realloc 0 ⟨[⟨8, true, [1, 2, 3]⟩], List.replicate 10 []⟩ true
        (some 0) 100).1 = some 8 ∧
    (mm_realloc 0 ⟨[⟨8, true, [1, 2, 3]⟩], List.replicate 10 []⟩ true
        (some 0) 100).1 ≠ some 0 := by
  refine ⟨?_, by decide, by decide⟩
  intro base a s
  simp [blkPtr, WSIZE]

/-- Witness for claim C3: the guard value at the failing input. -/
theorem claim_C3_witness : blkPtr 0 (0 + 8) ≠ 0 :=
  claim_C3.1 0 0 8

/-! ## Claim C4 -/

/-- Claim C4: resizing to size 0 performs exactly the state change of
free and returns the null result, and resizing a null pointer performs
exactly allocate, returning its result, for every state, pointer and
size. -/
theorem claim_C4 (base : Nat) (st : St) (growOk : Bool) (p : Option Nat) (n : Nat) :
    mm_realloc base st growOk p 0 = (none, mm_free st p) ∧
    mm_realloc base st growOk none n = mm_malloc st growOk n := by
  constructor
  · rfl
  · by_cases hn : n = 0
    · subst hn; simp [mm_realloc, mm_malloc, mm_free]
    · simp [mm_realloc, hn]

/-! ## Claim C9 -/

/-- Every failure path of mm_malloc returns the input state unchanged:
no partial block is committed. -/
theorem mm_malloc_fail_state (st : St) (growOk : Bool) (size : Nat)
    (h : (mm_malloc st growOk size).1 = none) :
    (mm_malloc st growOk size).2 = st := by
  by_cases h0 : size = 0
  · simp [mm_malloc, h0]
  · cases hA : malloc_awords size with
    | none => simp [mm_malloc, h0, hA]
    | some awords =>
      cases hF : find_fit st awords with
      | some a => simp [mm_malloc, h0, hA, hF] at h
      | none =>
        cases growOk with
        | false => simp [mm_malloc, extend_heap, h0, hA, hF]
        | true => simp [mm_malloc, extend_heap, h0, hA, hF] at h

/-- Claim C9: mm_malloc returns the null result exactly when the
request is zero, or the normalization arithmetic overflows, or no fit
is found and the heap-growth primitive fails; and on every such
failure the allocator state is returned unchanged, so no partial block
is committed. -/
theorem claim_C9 (st : St) (growOk : Bool) (size : Nat) :
    ((mm_malloc st growOk size).1 = none ↔
      size = 0 ∨ malloc_awords size = none ∨
      (∃ awords, malloc_awords size = some awords ∧
        find_fit st awords = none ∧ growOk = false)) ∧
    ((mm_malloc st growOk size).1 = none → (mm_malloc st growOk size).2 = st) := by
  refine ⟨?_, mm_malloc_fail_state st growOk size⟩
  by_cases h0 : size = 0
  · simp [mm_malloc, h0]
  · cases hA : malloc_awords size with
    | none => simp [mm_malloc, h0, hA]
    | some awords =>
      cases hF : find_fit st awords with
      | some a => simp [mm_malloc, h0, hA, hF]
      | none =>
        cases growOk with
        | false => simp [mm_malloc, extend_heap, h0, hA, hF]
        | true => simp [mm_malloc, extend_heap, h0, hA, hF]

/-- Witness for claim C9 at a zero-size request on the empty initial
state. -/
theorem claim_C9_witness :
    (mm_malloc init_state true 0).1 = none ∧
    (mm_malloc init_state true 0).2 = init_state :=
  ⟨(claim_C9 init_state true 0).1.mpr (Or.inl rfl),
   (claim_C9 init_state true 0).2 (by rfl)⟩

/-! ## Claim C5 -/

/-- Claim C5: the general fallback of mm_realloc.  When the fresh
allocation fails, the operation returns the null result and the whole
state, the original block included, is exactly the input state.  When
the fresh allocation returns a new block, exactly
min(size, oldpayloadsize) bytes of the old payload are copied into the
new payload and the old block is then freed through mm_free, and the
new payload address is returned. -/
theorem claim_C5 (st : St) (growOk : Bool) (a size oldpayloadsize : Nat) :
    ((mm_malloc st growOk size).1 = none →
      reallocGeneral st growOk a size oldpayloadsize = (none, st)) ∧
    (∀ na st1, mm_malloc st growOk size = (some na, st1) →
      reallocGeneral st growOk a size oldpayloadsize =
        (some na,
          mm_free (writeBytes st1 na
            ((bytesAt st1.heap a).take (min size oldpayloadsize))) (some a))) := by
  constructor
  · intro h
    have h2 := mm_malloc_fail_state st growOk size h
    unfold reallocGeneral
    rcases hm : mm_malloc st growOk size with ⟨r, s1⟩
    rw [hm] at h h2
    simp at h h2
    subst h; subst h2
    rfl
  · intro na st1 hm
    unfold reallocGeneral
    rw [hm]

/-- Witness for claim C5: both fallback outcomes on the empty initial
state, failing when growth is denied and succeeding when it is
granted. -/
theorem claim_C5_witness :
    reallocGeneral init_state false 0 4 24 = (none, init_state) ∧
    reallocGeneral init_state true 0 4 24 =
      (some 0,
        mm_free (writeBytes (mm_malloc init_state true 4).2 0
          ((bytesAt (mm_malloc init_state true 4).2.heap 0).take (min 4 24)))
          (some 0)) :=
  ⟨(claim_C5 init_state false 0 4 24).1 (by decide),
   (claim_C5 init_state true 0 4 24).2 0 (mm_malloc init_state true 4).2 (by rfl)⟩

/-! ## Claim C7 -/

/-- Claim C7: placing a request of asize words in a free block of
csize words (asize at most csize), in any arena position.  If the
remainder csize - asize is at least the minimum block size, the block
is split: the left part is marked allocated with size exactly asize
and the right remainder becomes a free block of csize - asize words
whose address is inserted back into the free-list manager.  Otherwise
the whole block is marked allocated at csize words. -/
theorem claim_C7 (L R : List Blk) (c : Blk) (bkts : List (List Nat)) (asize : Nat)
    (hfree : c.inuse = false) (hL : ∀ x ∈ L, 1 ≤ x.size) (hle : asize ≤ c.size) :
    (MIN_BLOCK_SIZE_WORDS ≤ c.size - asize →
      place ⟨L ++ c :: R, bkts⟩ (sizeSum L) asize =
        ⟨L ++ ⟨asize, true, c.bytes.take (payloadLen asize)⟩ ::
             ⟨c.size - asize, false, []⟩ :: R,
          segregatedListAdd (bucketsRemove bkts (sizeSum L))
            (sizeSum L + asize) (c.size - asize)⟩) ∧
    (c.size - asize < MIN_BLOCK_SIZE_WORDS →
      place ⟨L ++ c :: R, bkts⟩ (sizeSum L) asize =
        ⟨L ++ ⟨c.size, true, c.bytes⟩ :: R, bucketsRemove bkts (sizeSum L)⟩) := by
  have hidx : idxAt (L ++ c :: R) (sizeSum L) = some L.length :=
    idxAt_sizeSum L c R hL
  have hg : hGet (L ++ c :: R) L.length = c := hGet_app L (c :: R) 0
  have htake : (L ++ c :: R).take L.length = L := by
    have h0 := take_app L (c :: R) 0
    simp only [Nat.add_zero, List.take_zero, List.append_nil] at h0
    exact h0
  have hdrop : (L ++ c :: R).drop (L.length + 1) = R := drop_app L (c :: R) 1
  constructor
  · intro h8
    simp only [place, hidx, hg, splice, htake, hdrop]
    rw [if_pos h8]
    simp
  · intro h8
    simp only [place, hidx, hg, splice, htake, hdrop]
    rw [if_neg (by omega)]
    simp

/-- Witness for claim C7: splitting a free 16-word block for an
8-word request at the left arena edge. -/
theorem claim_C7_witness :
    place ⟨[⟨16, false, [9, 9]⟩], [[0], [], [], [], [], [], [], [], [], []]⟩ 0 8 =
      ⟨[⟨8, true, [9, 9]⟩, ⟨8, false, []⟩],
        segregatedListAdd
          (bucketsRemove [[0], [], [], [], [], [], [], [], [], []] 0) 8 8⟩ := by
  have h := (claim_C7 [] [] ⟨16, false, [9, 9]⟩
      [[0], [], [], [], [], [], [], [], [], []] 8 rfl (by simp) (by decide)).1
      (by decide)
  simpa using h

/-! ## Claim C6 -/

/-- Claim C6 counterexample: a free block whose predecessor and
successor are both in use.  The claim states that in every case
exactly one final header and footer write establishes the merged size;
in this no-merge case the coalescer performs no boundary-tag write at
all (its write trace is empty), relying on the size already present in
the block tags. -/
theorem claim_C6_cex :
    (coalesce ⟨[⟨8, true, []⟩, ⟨8, false, []⟩, ⟨8, true, []⟩],
        List.replicate 10 []⟩ 1).writes = [] ∧
    (coalesce ⟨[⟨8, true, []⟩, ⟨8, false, []⟩, ⟨8, true, []⟩],
        List.replicate 10 []⟩ 1).writes.length ≠ 1 := by
  refine ⟨?_, ?_⟩ <;> decide

/-- Claim C6 as amended: for every free block passed to the coalescer,
exactly one of four cases applies by the in-use states read from the
boundary tags of the predecessor and successor: no merge when both
neighbors are in use, absorb the successor at an unchanged address
when only the successor is free, merge into the predecessor when the
predecessor is free, and, when both are free, detach both, sum all
three sizes and adopt the predecessor address.  In each of the three
merging cases exactly one final header and footer write establishes
the merged size; in the no-merge case the coalescer performs no tag
write.  In every case the resulting free block is inserted into its
size-class bucket before returning, and the returned address is the
(possibly moved) merged block address. -/
theorem claim_C6_amended (L R : List Blk) (p c n : Blk) (bkts : List (List Nat))
    (r : CoalRes) (hc : c.inuse = false)
    (hr : r = coalesce ⟨L ++ p :: c :: n :: R, bkts⟩ (L.length + 1)) :
    (p.inuse = true → n.inuse = true →
      r.addr = sizeSum L + p.size ∧
      r.st.heap = L ++ p :: c :: n :: R ∧
      r.writes = [] ∧
      r.st.buckets = segregatedListAdd bkts (sizeSum L + p.size) c.size) ∧
    (p.inuse = true → n.inuse = false →
      r.addr = sizeSum L + p.size ∧
      r.st.heap = L ++ p :: ⟨c.size + n.size, false, []⟩ :: R ∧
      r.writes = [(sizeSum L + p.size, c.size + n.size, false)] ∧
      r.st.buckets =
        segregatedListAdd (bucketsRemove bkts (sizeSum L + p.size + c.size))
          (sizeSum L + p.size) (c.size + n.size)) ∧
    (p.inuse = false → n.inuse = true →
      r.addr = sizeSum L ∧
      r.st.heap = L ++ ⟨c.size + p.size, false, []⟩ :: n :: R ∧
      r.writes = [(sizeSum L, c.size + p.size, false)] ∧
      r.st.buckets =
        segregatedListAdd (bucketsRemove bkts (sizeSum L)) (sizeSum L)
          (c.size + p.size)) ∧
    (p.inuse = false → n.inuse = false →
      r.addr = sizeSum L ∧
      r.st.heap = L ++ ⟨c.size + n.size + p.size, false, []⟩ :: R ∧
      r.writes = [(sizeSum L, c.size + n.size + p.size, false)] ∧
      r.st.buckets =
        segregatedListAdd
          (bucketsRemove (bucketsRemove bkts (sizeSum L))
            (sizeSum L + p.size + c.size))
          (sizeSum L) (c.size + n.size + p.size)) := by
  have hgi : hGet (L ++ p :: c :: n :: R) (L.length + 1) = c :=
    hGet_app L (p :: c :: n :: R) 1
  have hgp : hGet (L ++ p :: c :: n :: R) L.length = p :=
    hGet_app L (p :: c :: n :: R) 0
  have hgn : hGet (L ++ p :: c :: n :: R) (L.length + 1 + 1) = n :=
    hGet_app L (p :: c :: n :: R) 2
  have hprev : prevOf (L ++ p :: c :: n :: R) (L.length + 1) = p := by
    simp [prevOf, hgp]
  have haddr : addrOf (L ++ p :: c :: n :: R) (L.length + 1) = sizeSum L + p.size := by
    have h1 := addrOf_app L (p :: c :: n :: R) 1
    simpa [addrOf, sizeSum] using h1
  have ht1 : (L ++ p :: c :: n :: R).take (L.length + 1) = L ++ [p] := by
    have h1 := take_app L (p :: c :: n :: R) 1
    simpa using h1
  have ht0 : (L ++ p :: c :: n :: R).take L.length = L := by
    have h1 := take_app L (p :: c :: n :: R) 0
    simp only [Nat.add_zero, List.take_zero, List.append_nil] at h1
    exact h1
  have hd3 : (L ++ p :: c :: n :: R).drop (L.length + 1 + 2) = R :=
    drop_app L (p :: c :: n :: R) 3
  have hd2 : (L ++ p :: c :: n :: R).drop (L.length + 2) = n :: R :=
    drop_app L (p :: c :: n :: R) 2
  subst hr
  refine ⟨?_, ?_, ?_, ?_⟩ <;> intro hp hn <;>
    simp [coalesce, splice, hgi, hgp, hgn, hprev, haddr, ht1, ht0, hd3, hd2,
      hp, hn, Nat.add_sub_cancel]

/-- Witness for claim C6: absorbing a free successor in a three-block
arena, with the successor listed in bucket zero. -/
theorem claim_C6_witness :
    (coalesce ⟨[⟨8, true, []⟩, ⟨8, false, []⟩, ⟨8, false, []⟩],
        [[16], [], [], [], [], [], [], [], [], []]⟩ 1).addr = 8 ∧
    (coalesce ⟨[⟨8, true, []⟩, ⟨8, false, []⟩, ⟨8, false, []⟩],
        [[16], [], [], [], [], [], [], [], [], []]⟩ 1).st.heap =
      [⟨8, true, []⟩, ⟨16, false, []⟩] ∧
    (coalesce ⟨[⟨8, true, []⟩, ⟨8, false, []⟩, ⟨8, false, []⟩],
        [[16], [], [], [], [], [], [], [], [], []]⟩ 1).writes = [(8, 16, false)] ∧
    (coalesce ⟨[⟨8, true, []⟩, ⟨8, false, []⟩, ⟨8, false, []⟩],
        [[16], [], [], [], [], [], [], [], [], []]⟩ 1).st.buckets =
      segregatedListAdd
        (bucketsRemove [[16], [], [], [], [], [], [], [], [], []] 16) 8 16 := by
  have h := (claim_C6_amended [] [] ⟨8, true, []⟩ ⟨8, false, []⟩ ⟨8, false, []⟩
      [[16], [], [], [], [], [], [], [], [], []] _ rfl rfl).2.1 rfl rfl
  simpa using h

/-! ## Claim C8 -/

theorem getD_set_self (l : List Tag) (i : Nat) (x d : Tag) (h : i < l.length) :
    (l.set i x).getD i d = x := by
  induction l generalizing i with
  | nil => simp at h
  | cons b t ih =>
    cases i with
    | zero => rfl
    | succ j =>
      have hl : j < t.length := by simpa using h
      simpa [List.getD_cons_succ] using ih j hl

theorem getD_set_ne (l : List Tag) (i j : Nat) (x d : Tag) (h : i ≠ j) :
    (l.set i x).getD j d = l.getD j d := by
  induction l generalizing i j with
  | nil => rfl
  | cons b t ih =>
    cases i with
    | zero =>
      cases j with
      | zero => exact absurd rfl h
      | succ k => simp [List.getD_cons_succ]
    | succ i2 =>
      cases j with
      | zero => rfl
      | succ k =>
        have : i2 ≠ k := by omega
        simpa [List.getD_cons_succ] using ih i2 k this

/-- Claim C8 counterexample: extend_heap stores the fresh epilogue
fence header with a raw single-word tag write that bypasses
set_header_and_footer (src/mm.c line 375), and mm_init likewise
stores the two initial fences directly (lines 158-160).  This refutes
the claim that no code other than the paired write path writes a
boundary tag directly. -/
theorem claim_C8_cex :
    TagWrite.raw (3 + CHUNKSIZE) FENCE ∈ extend_heap_writes 3 CHUNKSIZE ∧
    (extend_heap_writes 3 CHUNKSIZE).any TagWrite.isRaw = true ∧
    mm_init_writes.any TagWrite.isRaw = true := by
  refine ⟨?_, ?_, ?_⟩ <;> decide

/-- Claim C8 as amended: set_header_and_footer leaves the header and
the footer of the written block holding the identical tag it was asked
to store, so every block write that goes through it preserves
header = footer; and the only boundary-tag writes that bypass it are
the fence-header stores: the single raw write of extend_heap is the
fresh epilogue fence one word past the new block, and the raw writes
of mm_init are the prologue and epilogue fences (the fences, of size
zero, have no footer of their own). -/
theorem claim_C8_amended (mem : List Tag) (blk size : Nat) (inuse : Bool)
    (h1 : 1 ≤ size) (h2 : blk + size ≤ mem.length) :
    ((set_header_and_footer mem blk size inuse).getD blk FENCE = ⟨inuse, size⟩ ∧
     (set_header_and_footer mem blk size inuse).getD (blk + size - 1) FENCE =
       ⟨inuse, size⟩) ∧
    (∀ oldEpi words,
      (extend_heap_writes oldEpi words).filter TagWrite.isRaw =
        [.raw (oldEpi + words) FENCE]) ∧
    mm_init_writes.filter TagWrite.isRaw =
      [.raw 2 FENCE, .raw 3 FENCE, .raw (3 + CHUNKSIZE) FENCE] := by
  refine ⟨?_, ?_, ?_⟩
  · have hblk : blk < mem.length := by omega
    have hfo : blk + size - 1 < mem.length := by omega
    have hm1 : (mem.set blk ⟨inuse, size⟩).getD blk FENCE = ⟨inuse, size⟩ :=
      getD_set_self mem blk ⟨inuse, size⟩ FENCE hblk
    simp only [set_header_and_footer]
    rw [hm1]
    have hf1 : blk + size - 1 < (mem.set blk ⟨inuse, size⟩).length := by
      simpa using hfo
    constructor
    · by_cases he : blk + size - 1 = blk
      · rw [he]
        exact getD_set_self _ _ _ _ (by simpa using hblk)
      · rw [getD_set_ne _ _ _ _ _ he]
        exact hm1
    · exact getD_set_self _ _ _ _ hf1
  · intro oldEpi words
    simp [extend_heap_writes, TagWrite.isRaw]
  · rfl

/-- Witness for claim C8: a two-word block written into a two-word
arena; header and footer agree. -/
theorem claim_C8_witness :
    (set_header_and_footer [FENCE, FENCE] 0 2 true).getD 0 FENCE = ⟨true, 2⟩ ∧
    (set_header_and_footer [FENCE, FENCE] 0 2 true).getD (0 + 2 - 1) FENCE =
      ⟨true, 2⟩ :=
  (claim_C8_amended [FENCE, FENCE] 0 2 true (by decide) (by decide)).1

/-! ## Claim C10 -/

/-- Claim C10: each successful in-place resize marks the merged region
allocated at the full sum of the sizes of all merged blocks.  The
surplus beyond the needed word count awords is never split off into a
free remainder: the resulting arena holds one allocated block covering
the entire merged region, even when the surplus is a minimum block
size or more, unlike the place step of allocate.  The three cases are
predecessor-absorb (payload moves to the predecessor address),
successor-absorb (address unchanged), and both-neighbors-absorb
(payload moves to the predecessor address). -/
theorem claim_C10 (base : Nat) (L R : List Blk) (p c n : Blk)
    (bkts : List (List Nat)) (growOk : Bool) (size awords : Nat)
    (hL : ∀ x ∈ L, 1 ≤ x.size) (hp1 : 1 ≤ p.size) (hsz : size ≠ 0)
    (hA : realloc_awords size = some awords) :
    (p.inuse = false → n.inuse = true → awords ≤ p.size + c.size →
      mm_realloc base ⟨L ++ p :: c :: n :: R, bkts⟩ growOk
          (some (sizeSum L + p.size)) size =
        (some (sizeSum L),
          ⟨L ++ ⟨c.size + p.size, true, c.bytes.take (payloadLen c.size)⟩ :: n :: R,
            bucketsRemove bkts (sizeSum L)⟩)) ∧
    (n.inuse = false → awords ≤ n.size + c.size →
      mm_realloc base ⟨L ++ p :: c :: n :: R, bkts⟩ growOk
          (some (sizeSum L + p.size)) size =
        (some (sizeSum L + p.size),
          ⟨L ++ p :: ⟨n.size + c.size, true, c.bytes⟩ :: R,
            bucketsRemove bkts (sizeSum L + p.size + c.size)⟩)) ∧
    (p.inuse = false → n.inuse = false → n.size + c.size < awords →
      awords ≤ p.size + c.size + n.size →
      mm_realloc base ⟨L ++ p :: c :: n :: R, bkts⟩ growOk
          (some (sizeSum L + p.size)) size =
        (some (sizeSum L),
          ⟨L ++ ⟨n.size + c.size + p.size, true,
              c.bytes.take (payloadLen c.size)⟩ :: R,
            bucketsRemove (bucketsRemove bkts (sizeSum L + p.size + c.size))
              (sizeSum L)⟩)) := by
  have hgi : hGet (L ++ p :: c :: n :: R) (L.length + 1) = c :=
    hGet_app L (p :: c :: n :: R) 1
  have hgp : hGet (L ++ p :: c :: n :: R) L.length = p :=
    hGet_app L (p :: c :: n :: R) 0
  have hgn : hGet (L ++ p :: c :: n :: R) (L.length + 1 + 1) = n :=
    hGet_app L (p :: c :: n :: R) 2
  have hprev : prevOf (L ++ p :: c :: n :: R) (L.length + 1) = p := by
    simp [prevOf, hgp]
  have hidx : idxAt (L ++ p :: c :: n :: R) (sizeSum L + p.size) =
      some (L.length + 1) := by
    have hL1 : ∀ x ∈ L ++ [p], 1 ≤ x.size := by
      intro x hx
      rcases List.mem_append.mp hx with hxl | hxp
      · exact hL x hxl
      · have : x = p := by simpa using hxp
        subst this; exact hp1
    have h1 := idxAt_sizeSum (L ++ [p]) c (n :: R) hL1
    simpa [sizeSum_append, sizeSum, List.append_assoc] using h1
  have ht1 : (L ++ p :: c :: n :: R).take (L.length + 1) = L ++ [p] := by
    have h1 := take_app L (p :: c :: n :: R) 1
    simpa using h1
  have ht0 : (L ++ p :: c :: n :: R).take L.length = L := by
    have h1 := take_app L (p :: c :: n :: R) 0
    simp only [Nat.add_zero, List.take_zero, List.append_nil] at h1
    exact h1
  have hd3 : (L ++ p :: c :: n :: R).drop (L.length + 1 + 2) = R :=
    drop_app L (p :: c :: n :: R) 3
  have hd3b : (L ++ p :: c :: n :: R).drop (L.length + 3) = R :=
    drop_app L (p :: c :: n :: R) 3
  have hd2 : (L ++ p :: c :: n :: R).drop (L.length + 2) = n :: R :=
    drop_app L (p :: c :: n :: R) 2
  refine ⟨?_, ?_, ?_⟩
  · intro hp hn hfit
    simp [mm_realloc, splice, hsz, hidx, hA, hgi, hgp, hgn, hprev,
      ht1, ht0, hd3, hd3b, hd2, hp, hn, hfit, Nat.add_sub_cancel]
  · intro hn hfit
    simp [mm_realloc, splice, hsz, hidx, hA, hgi, hgp, hgn, hprev,
      ht1, ht0, hd3, hd3b, hd2, hn, hfit, Nat.add_sub_cancel]
  · intro hp hn hlt hfit
    have hnot : ¬ awords ≤ n.size + c.size := by omega
    simp [mm_realloc, splice, hsz, hidx, hA, hgi, hgp, hgn, hprev,
      ht1, ht0, hd3, hd3b, hd2, hp, hn, hnot, hfit, Nat.add_sub_cancel]

/-- Witness for claim C10: absorbing a free 8-word successor when
resizing a 8-word block to 40 bytes (12 needed words) in a three-block
arena; the result is one allocated 16-word block, 4 words larger than
needed. -/
theorem claim_C10_witness :
    mm_realloc 0 ⟨[⟨8, true, []⟩, ⟨8, true, [5, 5]⟩, ⟨8, false, []⟩],
        [[16], [], [], [], [], [], [], [], [], []]⟩ true (some 8) 40 =
      (some 8,
        ⟨[⟨8, true, []⟩, ⟨16, true, [5, 5]⟩],
          bucketsRemove [[16], [], [], [], [], [], [], [], [], []] 16⟩) := by
  have h := (claim_C10 0 [] [] ⟨8, true, []⟩ ⟨8, true, [5, 5]⟩ ⟨8, false, []⟩
      [[16], [], [], [], [], [], [], [], [], []] true 40 12
      (by simp) (by decide) (by decide) (by decide)).2.1 rfl (by decide)
  simpa using h

end Malloc
